import Mathlib

/-!
# Market Trend Analyzer — verification development

A shallow embedding of the indicator engine of `market_trend_analyzer.py`
(class `MarketTrendAnalyzer`) and proofs of the specified properties.

Modelling conventions:
* IEEE-754 doubles are modelled by `MFloat`: an exact rational together with
  the special values `NaN`, `PInf`, `NInf`.  Arithmetic on the special values
  follows IEEE rules (NaN propagates; `x / 0` is a signed infinity for
  `x ≠ 0` and NaN for `x = 0`; comparisons with NaN are false).  Rounding of
  finite values is not modelled: finite arithmetic is exact rational
  arithmetic.
* Validated close prices are finite numbers, modelled as `ℚ`.
* `pandas.Series.rolling(w).mean()` with the default `min_periods` is
  `rollingMeanM`: an output entry is NaN while fewer than `w` observations
  are available (index `i < w - 1`), and the mean of the `w`-element window
  otherwise; a window size of `0` produces the empty-window mean `0 / 0`,
  i.e. NaN at every index (pandas accepts `window = 0` and only rejects
  negative windows).
* `pandas.Series.ewm(span, adjust=False).mean()` on a finite-valued series
  is `ewmMean`: seeded with the first element, then the recursive smoothing
  `y[i] = a*x[i] + (1-a)*y[i-1]` with `a = 2/(span+1)`; pandas rejects
  `span < 1`.
* The analyzer instance is `Session`: the fetched close series plus the
  insertion-ordered `indicators` mapping (a Python `dict`); assignment to an
  existing key overwrites in place, a new key is appended (`setIndicator`).
* Exceptions are modelled by `Except AnalyzerError`; the error cases mirror
  the `ValueError`s raised by the source and by the pandas entry points it
  calls.
-/

/-- IEEE-754 double values, with exact rationals in place of finite floats. -/
inductive MFloat where
  | NaN : MFloat
  | PInf : MFloat
  | NInf : MFloat
  | val : ℚ → MFloat
deriving DecidableEq, Repr

/-- IEEE addition. -/
def MFloat.add : MFloat → MFloat → MFloat
  | MFloat.NaN, _ => MFloat.NaN
  | _, MFloat.NaN => MFloat.NaN
  | MFloat.PInf, MFloat.NInf => MFloat.NaN
  | MFloat.NInf, MFloat.PInf => MFloat.NaN
  | MFloat.PInf, _ => MFloat.PInf
  | MFloat.NInf, _ => MFloat.NInf
  | MFloat.val _, MFloat.PInf => MFloat.PInf
  | MFloat.val _, MFloat.NInf => MFloat.NInf
  | MFloat.val a, MFloat.val b => MFloat.val (a + b)

/-- IEEE negation. -/
def MFloat.neg : MFloat → MFloat
  | MFloat.NaN => MFloat.NaN
  | MFloat.PInf => MFloat.NInf
  | MFloat.NInf => MFloat.PInf
  | MFloat.val a => MFloat.val (-a)

/-- IEEE subtraction. -/
def MFloat.sub (a b : MFloat) : MFloat := MFloat.add a (MFloat.neg b)

/-- IEEE division (signed zeros are not modelled: `x / ±∞` is plain `0`). -/
def MFloat.div : MFloat → MFloat → MFloat
  | MFloat.NaN, _ => MFloat.NaN
  | _, MFloat.NaN => MFloat.NaN
  | MFloat.PInf, MFloat.PInf => MFloat.NaN
  | MFloat.PInf, MFloat.NInf => MFloat.NaN
  | MFloat.NInf, MFloat.PInf => MFloat.NaN
  | MFloat.NInf, MFloat.NInf => MFloat.NaN
  | MFloat.PInf, MFloat.val b => if 0 ≤ b then MFloat.PInf else MFloat.NInf
  | MFloat.NInf, MFloat.val b => if 0 ≤ b then MFloat.NInf else MFloat.PInf
  | MFloat.val _, MFloat.PInf => MFloat.val 0
  | MFloat.val _, MFloat.NInf => MFloat.val 0
  | MFloat.val a, MFloat.val b =>
      if b = 0 then
        (if a = 0 then MFloat.NaN else if 0 < a then MFloat.PInf else MFloat.NInf)
      else MFloat.val (a / b)

/-- IEEE `<`: any comparison involving NaN is false. -/
def MFloat.lt : MFloat → MFloat → Bool
  | MFloat.NaN, _ => false
  | _, MFloat.NaN => false
  | MFloat.PInf, _ => false
  | _, MFloat.PInf => true
  | MFloat.NInf, MFloat.NInf => false
  | MFloat.NInf, MFloat.val _ => true
  | MFloat.val _, MFloat.NInf => false
  | MFloat.val a, MFloat.val b => decide (a < b)

/-- IEEE `>`: any comparison involving NaN is false. -/
def MFloat.gt (a b : MFloat) : Bool := MFloat.lt b a

/-- The trend labels assigned by `detect_trend`. -/
inductive TrendLabel where
  | Bullish : TrendLabel
  | Bearish : TrendLabel
  | Neutral : TrendLabel
deriving DecidableEq, Repr

/-- A value of the analyzer's `indicators` mapping: a numeric series
(`pd.Series` of floats) or the trend-label series. -/
inductive IndSeries where
  | num : List MFloat → IndSeries
  | lab : List TrendLabel → IndSeries
deriving DecidableEq, Repr

/-- Length of a stored indicator series. -/
def IndSeries.length : IndSeries → Nat
  | IndSeries.num l => l.length
  | IndSeries.lab l => l.length

/-- State of a `MarketTrendAnalyzer` instance after `fetch_data`: the validated
close-price column plus the `indicators` dict (insertion ordered). -/
structure Session where
  data : List ℚ
  indicators : List (String × IndSeries)
deriving DecidableEq, Repr

/-- Python dict assignment `self.indicators[k] = v`: overwrite in place if
the key exists, append otherwise (dicts preserve insertion order). -/
def setIndicator : List (String × IndSeries) → String → IndSeries → List (String × IndSeries)
  | [], k, v => [(k, v)]
  | (k', v') :: rest, k, v =>
      if k' = k then (k, v) :: rest else (k', v') :: setIndicator rest k v

/-- Dict lookup `self.indicators.get(k)`. -/
def lookupInd : List (String × IndSeries) → String → Option IndSeries
  | [], _ => none
  | (k', v') :: rest, k => if k' = k then some v' else lookupInd rest k

/-- Sum of a float series (left fold, as the rolling kernel accumulates). -/
def mSum (l : List MFloat) : MFloat := l.foldl MFloat.add (MFloat.val 0)

/-- Model of `series.rolling(window=w).mean()` with default `min_periods = w`:
NaN until `w` observations are available, else the window mean. -/
def rollingMeanM (w : Nat) (xs : List MFloat) : List MFloat :=
  (List.range xs.length).map fun i =>
    if i + 1 < w then MFloat.NaN
    else MFloat.div (mSum ((xs.drop (i + 1 - w)).take w)) (MFloat.val (w : ℚ))

/-- The tail of `series.ewm(span, adjust=False).mean()` on finite values:
carries the previous output and applies `y = a*x + (1-a)*prev`. -/
def ewmStep (a : ℚ) : ℚ → List ℚ → List ℚ
  | _, [] => []
  | prev, x :: rest =>
      (a * x + (1 - a) * prev) :: ewmStep a (a * x + (1 - a) * prev) rest

/-- Model of `series.ewm(span, adjust=False).mean()` on finite values: the first
output equals the first input, then recursive smoothing with
`a = 2 / (span + 1)`. -/
def ewmMean (span : ℚ) (xs : List ℚ) : List ℚ :=
  match xs with
  | [] => []
  | x :: rest => x :: ewmStep (2 / (span + 1)) x rest

/-- Model of `self.data['Close'].diff()`: NaN at index 0, else the successive
difference. -/
def seriesDiff (xs : List ℚ) : List MFloat :=
  (List.range xs.length).map fun i =>
    if i = 0 then MFloat.NaN
    else MFloat.val (xs.getD i 0 - xs.getD (i - 1) 0)

/-- Model of `delta.where(delta > 0, 0)`: keep positive differences, replace the
rest (including the NaN at index 0, whose comparison is false) with 0. -/
def gainSeries (xs : List ℚ) : List MFloat :=
  (seriesDiff xs).map fun d =>
    if MFloat.gt d (MFloat.val 0) then d else MFloat.val 0

/-- Model of `-delta.where(delta < 0, 0)`: keep negative differences, replace the
rest with 0, then negate. -/
def lossSeries (xs : List ℚ) : List MFloat :=
  (seriesDiff xs).map fun d =>
    MFloat.neg (if MFloat.lt d (MFloat.val 0) then d else MFloat.val 0)

/-- Body of `calculate_rsi`: rolling means of gains and losses,
`rs = gain / loss`, `rsi = 100 - 100 / (1 + rs)`. -/
def rsiSeries (periods : Nat) (xs : List ℚ) : List MFloat :=
  let gain := rollingMeanM periods (gainSeries xs)
  let loss := rollingMeanM periods (lossSeries xs)
  let rs := List.zipWith MFloat.div gain loss
  rs.map fun r =>
    MFloat.sub (MFloat.val 100)
      (MFloat.div (MFloat.val 100) (MFloat.add (MFloat.val 1) r))

/-- The line `macd = ema_fast - ema_slow` (elementwise on aligned series). -/
def macdLine (fast slow : ℚ) (xs : List ℚ) : List ℚ :=
  List.zipWith (fun a b => a - b) (ewmMean fast xs) (ewmMean slow xs)

/-- The line `signal_line = macd.ewm(span=signal, adjust=False).mean()`. -/
def signalLine (fast slow sg : ℚ) (xs : List ℚ) : List ℚ :=
  ewmMean sg (macdLine fast slow xs)

/-- The line `histogram = macd - signal_line`. -/
def histogramLine (fast slow sg : ℚ) (xs : List ℚ) : List ℚ :=
  List.zipWith (fun a b => a - b) (macdLine fast slow xs) (signalLine fast slow sg xs)

/-- The `ValueError`s the analyzer can surface, named after their origin. -/
inductive AnalyzerError where
  /-- stock branch of `fetch_data`: "No data retrieved for the given symbol
  and date range" (the spec's `EmptySeries`). -/
  | noDataRetrieved : AnalyzerError
  /-- crypto branch of `fetch_data`: "Unsupported timeframe". -/
  | unsupportedTimeframe : AnalyzerError
  /-- pandas `rolling`: "window must be an integer 0 or greater". -/
  | invalidWindow : AnalyzerError
  /-- pandas `ewm`: "span must satisfy: span >= 1". -/
  | invalidSpan : AnalyzerError
deriving DecidableEq, Repr

/-- Method `calculate_sma`: pandas rejects a negative window; otherwise the rolling
mean is computed and stored under `SMA_{window}`. -/
def calculate_sma (s : Session) (window : Int) :
    Except AnalyzerError (List MFloat × Session) :=
  if window < 0 then Except.error AnalyzerError.invalidWindow
  else
    let sma := rollingMeanM window.toNat (s.data.map MFloat.val)
    Except.ok (sma,
      { s with indicators :=
          setIndicator s.indicators ("SMA_" ++ toString window) (IndSeries.num sma) })

/-- Method `calculate_ema`: pandas rejects `span < 1`; otherwise the exponential
moving average is computed and stored under `EMA_{window}`. -/
def calculate_ema (s : Session) (window : Int) :
    Except AnalyzerError (List MFloat × Session) :=
  if window < 1 then Except.error AnalyzerError.invalidSpan
  else
    let ema := (ewmMean (window : ℚ) s.data).map MFloat.val
    Except.ok (ema,
      { s with indicators :=
          setIndicator s.indicators ("EMA_" ++ toString window) (IndSeries.num ema) })

/-- Method `calculate_rsi`: the rolling windows reject a negative period; otherwise
the RSI is computed and stored under `RSI`. -/
def calculate_rsi (s : Session) (periods : Int) :
    Except AnalyzerError (List MFloat × Session) :=
  if periods < 0 then Except.error AnalyzerError.invalidWindow
  else
    let rsi := rsiSeries periods.toNat s.data
    Except.ok (rsi,
      { s with indicators := setIndicator s.indicators "RSI" (IndSeries.num rsi) })

/-- Method `calculate_macd`: the three `ewm` calls reject spans `< 1`; otherwise
the MACD line, signal line and histogram are computed and stored under
`MACD`, `Signal`, `Histogram`. -/
def calculate_macd (s : Session) (fast slow sg : Int) :
    Except AnalyzerError (List MFloat × List MFloat × List MFloat × Session) :=
  if fast < 1 then Except.error AnalyzerError.invalidSpan
  else if slow < 1 then Except.error AnalyzerError.invalidSpan
  else if sg < 1 then Except.error AnalyzerError.invalidSpan
  else
    let macd := macdLine (fast : ℚ) (slow : ℚ) s.data
    let signal_line := signalLine (fast : ℚ) (slow : ℚ) (sg : ℚ) s.data
    let histogram := histogramLine (fast : ℚ) (slow : ℚ) (sg : ℚ) s.data
    let ind1 := setIndicator s.indicators "MACD" (IndSeries.num (macd.map MFloat.val))
    let ind2 := setIndicator ind1 "Signal" (IndSeries.num (signal_line.map MFloat.val))
    let ind3 := setIndicator ind2 "Histogram" (IndSeries.num (histogram.map MFloat.val))
    Except.ok (macd.map MFloat.val, signal_line.map MFloat.val, histogram.map MFloat.val,
      { s with indicators := ind3 })

/-- Per-index body of the loop in `detect_trend` (first match wins, NaN
comparisons are false, default `Neutral`). -/
def classifyPoint (sma_short sma_long rsi : MFloat) : TrendLabel :=
  if MFloat.gt sma_short sma_long && MFloat.gt rsi (MFloat.val 50) then TrendLabel.Bullish
  else if MFloat.lt sma_short sma_long && MFloat.lt rsi (MFloat.val 50) then TrendLabel.Bearish
  else TrendLabel.Neutral

/-- Method `detect_trend`: recomputes SMA(20), SMA(50) and RSI(14) through the
indicator methods (each of which stores its result), then classifies every
index and stores the labels under `Trend`. -/
def detect_trend (s : Session) :
    Except AnalyzerError (List TrendLabel × Session) := do
  let (sma_short, s1) ← calculate_sma s 20
  let (sma_long, s2) ← calculate_sma s1 50
  let (rsi, s3) ← calculate_rsi s2 14
  let trend := (List.range s3.data.length).map fun i =>
    classifyPoint (sma_short.getD i MFloat.NaN) (sma_long.getD i MFloat.NaN)
      (rsi.getD i MFloat.NaN)
  Except.ok (trend,
    { s3 with indicators := setIndicator s3.indicators "Trend" (IndSeries.lab trend) })

/-- Market type selected on the command line. -/
inductive Market where
  | stock : Market
  | crypto : Market
deriving DecidableEq, Repr

/-- One OHLCV row as fetched from the external data source
(`date` is the timestamp in milliseconds). -/
structure Row where
  date : Int
  op : ℚ
  high : ℚ
  low : ℚ
  close : ℚ
  volume : ℚ
deriving DecidableEq, Repr

/-- Method `fetch_data`, given the rows the external source returned: the stock
branch rejects an empty result; the crypto branch checks the timeframe and
filters rows by the end date but never checks for emptiness. -/
def fetch_data (market : Market) (timeframe : String) (raw : List Row) (endTs : Int) :
    Except AnalyzerError (List Row) :=
  match market with
  | Market.stock =>
      if raw.isEmpty then Except.error AnalyzerError.noDataRetrieved
      else Except.ok raw
  | Market.crypto =>
      if timeframe = "1h" ∨ timeframe = "1d" ∨ timeframe = "1w" then
        Except.ok (raw.filter fun r => r.date ≤ endTs)
      else Except.error AnalyzerError.unsupportedTimeframe

/-- The analysis pipeline of `main`: fetch, then SMA(20), SMA(50), EMA(20),
RSI(14), MACD(12,26,9), trend detection. -/
def runAnalysis (market : Market) (timeframe : String) (raw : List Row) (endTs : Int) :
    Except AnalyzerError Session := do
  let rows ← fetch_data market timeframe raw endTs
  let s : Session := ⟨rows.map Row.close, []⟩
  let (_, s) ← calculate_sma s 20
  let (_, s) ← calculate_sma s 50
  let (_, s) ← calculate_ema s 20
  let (_, s) ← calculate_rsi s 14
  let (_, _, _, s) ← calculate_macd s 12 26 9
  let (_, s) ← detect_trend s
  Except.ok s

/-- Alignment invariant: every stored indicator series has the length of the
validated price series. -/
def SessionWF (s : Session) : Prop :=
  ∀ p ∈ s.indicators, IndSeries.length p.2 = s.data.length

/-! ## Helper lemmas -/

theorem getD_map_range {α : Type} (f : ℕ → α) {n i : ℕ} (h : i < n) (d : α) :
    ((List.range n).map f).getD i d = f i := by
  simp [List.getD_eq_getElem?_getD, List.getElem?_map, List.getElem?_range, h]

theorem getD_map {α β : Type} (f : α → β) (l : List α) {i : ℕ} (h : i < l.length)
    (d : β) (d' : α) : (l.map f).getD i d = f (l.getD i d') := by
  simp [List.getD_eq_getElem?_getD, List.getElem?_map, List.getElem?_eq_getElem, h]

theorem getD_zipWith {α β γ : Type} (f : α → β → γ) :
    ∀ (l1 : List α) (l2 : List β) (i : ℕ) (d1 : α) (d2 : β) (d : γ),
      i < l1.length → i < l2.length →
      (List.zipWith f l1 l2).getD i d = f (l1.getD i d1) (l2.getD i d2) := by
  intro l1
  induction l1 with
  | nil => intro l2 i d1 d2 d h1 h2; simp at h1
  | cons x xs ih =>
      intro l2 i d1 d2 d h1 h2
      cases l2 with
      | nil => simp at h2
      | cons y ys =>
          cases i with
          | zero => simp
          | succ j =>
              simp only [List.zipWith_cons_cons, List.getD_cons_succ]
              exact ih ys j d1 d2 d (by simpa using h1) (by simpa using h2)

theorem mlt_nan_left (x : MFloat) : MFloat.lt MFloat.NaN x = false := by
  cases x <;> rfl

theorem mlt_nan_right (x : MFloat) : MFloat.lt x MFloat.NaN = false := by
  cases x <;> rfl

theorem mdiv_val_val (a b : ℚ) (hb : b ≠ 0) :
    MFloat.div (MFloat.val a) (MFloat.val b) = MFloat.val (a / b) := by
  simp [MFloat.div, hb]

theorem msub_val_val (a b : ℚ) :
    MFloat.sub (MFloat.val a) (MFloat.val b) = MFloat.val (a - b) := by
  simp [MFloat.sub, MFloat.add, MFloat.neg, sub_eq_add_neg]

theorem foldl_add_map_val (l : List ℚ) :
    ∀ q : ℚ, (l.map MFloat.val).foldl MFloat.add (MFloat.val q) = MFloat.val (q + l.sum) := by
  induction l with
  | nil => intro q; simp
  | cons x xs ih => intro q; simp [MFloat.add, ih, add_assoc]

theorem mSum_map_val (l : List ℚ) : mSum (l.map MFloat.val) = MFloat.val l.sum := by
  simpa using foldl_add_map_val l 0

theorem length_rollingMeanM (w : ℕ) (xs : List MFloat) :
    (rollingMeanM w xs).length = xs.length := by
  simp [rollingMeanM]

theorem rollingMeanM_getD (w : ℕ) (xs : List MFloat) {i : ℕ} (hi : i < xs.length)
    (d : MFloat) :
    (rollingMeanM w xs).getD i d =
      if i + 1 < w then MFloat.NaN
      else MFloat.div (mSum ((xs.drop (i + 1 - w)).take w)) (MFloat.val (w : ℚ)) := by
  unfold rollingMeanM
  exact getD_map_range _ hi d

theorem rollingMeanM_getD_nan (w : ℕ) (xs : List MFloat) {i : ℕ} (hi : i < xs.length)
    (hw : i + 1 < w) (d : MFloat) : (rollingMeanM w xs).getD i d = MFloat.NaN := by
  rw [rollingMeanM_getD w xs hi d, if_pos hw]

theorem rollingMeanM_val_getD (w : ℕ) (l : List ℚ) {i : ℕ} (hi : i < l.length)
    (hw : 0 < w) (hwi : w ≤ i + 1) (d : MFloat) :
    (rollingMeanM w (l.map MFloat.val)).getD i d =
      MFloat.val (((l.drop (i + 1 - w)).take w).sum / (w : ℚ)) := by
  rw [rollingMeanM_getD w _ (by simpa using hi) d, if_neg (by omega),
    ← List.map_drop, ← List.map_take, mSum_map_val,
    mdiv_val_val _ _ (by exact_mod_cast hw.ne')]

theorem drop_take_sum (l : List ℚ) :
    ∀ (w k : ℕ), k + w ≤ l.length →
      ((l.drop k).take w).sum = ((List.range w).map fun j => l.getD (k + j) 0).sum := by
  intro w
  induction w with
  | zero => intro k _; simp
  | succ v ih =>
      intro k h
      have hk : k < l.length := by omega
      have hfun : ((fun j => l.getD (k + j) 0) ∘ Nat.succ) =
          fun j => l.getD (k + 1 + j) 0 := by
        funext j
        simp only [Function.comp_apply]
        congr 1
        omega
      have hget : l.getD k 0 = l[k] := by
        simp [List.getD_eq_getElem?_getD, List.getElem?_eq_getElem hk]
      rw [List.drop_eq_getElem_cons hk, List.take_succ_cons, List.sum_cons,
        ih (k + 1) (by omega), List.range_succ_eq_map, List.map_cons, List.sum_cons,
        List.map_map, hfun]
      simp [hget, List.getElem?_eq_getElem hk]

theorem length_ewmStep (a : ℚ) : ∀ (xs : List ℚ) (prev : ℚ),
    (ewmStep a prev xs).length = xs.length := by
  intro xs
  induction xs with
  | nil => intro prev; rfl
  | cons x rest ih => intro prev; simp [ewmStep, ih]

theorem length_ewmMean (sp : ℚ) (xs : List ℚ) : (ewmMean sp xs).length = xs.length := by
  cases xs with
  | nil => rfl
  | cons x rest => simp [ewmMean, length_ewmStep]

theorem ewmStep_getD_succ (a : ℚ) :
    ∀ (xs : List ℚ) (prev : ℚ) (i : ℕ), i + 1 < xs.length →
      (ewmStep a prev xs).getD (i + 1) 0 =
        a * xs.getD (i + 1) 0 + (1 - a) * (ewmStep a prev xs).getD i 0 := by
  intro xs
  induction xs with
  | nil => intro prev i h; simp at h
  | cons x rest ih =>
      intro prev i h
      cases i with
      | zero =>
          cases rest with
          | nil => simp at h
          | cons r rest' => simp [ewmStep]
      | succ j =>
          have h' : j + 1 < rest.length := by simpa using Nat.lt_of_succ_lt_succ h
          simp only [ewmStep, List.getD_cons_succ]
          exact ih _ j h'

theorem ewmMean_getD_succ (sp : ℚ) (xs : List ℚ) (i : ℕ) (h : i + 1 < xs.length) :
    (ewmMean sp xs).getD (i + 1) 0 =
      (2 / (sp + 1)) * xs.getD (i + 1) 0 +
        (1 - 2 / (sp + 1)) * (ewmMean sp xs).getD i 0 := by
  cases xs with
  | nil => simp at h
  | cons x rest =>
      cases i with
      | zero =>
          cases rest with
          | nil => simp at h
          | cons r rest' => simp [ewmMean, ewmStep]
      | succ j =>
          have h' : j + 1 < rest.length := by simpa using Nat.lt_of_succ_lt_succ h
          simp only [ewmMean, List.getD_cons_succ]
          exact ewmStep_getD_succ (2 / (sp + 1)) rest x j h'

theorem setIndicator_eq_self :
    ∀ (m : List (String × IndSeries)) (k : String) (v : IndSeries),
      lookupInd m k = some v → setIndicator m k v = m := by
  intro m
  induction m with
  | nil => intro k v h; simp [lookupInd] at h
  | cons p rest ih =>
      intro k v h
      obtain ⟨k', v'⟩ := p
      by_cases hk : k' = k
      · simp [lookupInd, hk] at h
        simp [setIndicator, hk, h]
      · simp [lookupInd, hk] at h
        simp [setIndicator, hk, ih k v h]

theorem mem_setIndicator :
    ∀ (m : List (String × IndSeries)) (k : String) (v : IndSeries)
      (p : String × IndSeries), p ∈ setIndicator m k v → p = (k, v) ∨ p ∈ m := by
  intro m
  induction m with
  | nil => intro k v p h; simp [setIndicator] at h; simp [h]
  | cons q rest ih =>
      intro k v p h
      obtain ⟨k', v'⟩ := q
      by_cases hk : k' = k
      · simp [setIndicator, hk] at h
        rcases h with h | h
        · exact Or.inl h
        · exact Or.inr (List.mem_cons_of_mem _ h)
      · simp only [setIndicator, if_neg hk, List.mem_cons] at h
        rcases h with h | h
        · exact Or.inr (by simp [h])
        · rcases ih k v p h with h1 | h1
          · exact Or.inl h1
          · exact Or.inr (List.mem_cons_of_mem _ h1)

/-- Rational value of the gain series at index `i` (what
`delta.where(delta > 0, 0)` holds there, all entries being finite). -/
def qGain (xs : List ℚ) (i : ℕ) : ℚ :=
  if i = 0 then 0
  else if 0 < xs.getD i 0 - xs.getD (i - 1) 0 then xs.getD i 0 - xs.getD (i - 1) 0 else 0

/-- Rational value of the loss series at index `i`. -/
def qLoss (xs : List ℚ) (i : ℕ) : ℚ :=
  if i = 0 then 0
  else if xs.getD i 0 - xs.getD (i - 1) 0 < 0 then -(xs.getD i 0 - xs.getD (i - 1) 0) else 0

/-- The gain series as a rational list. -/
def qGainList (xs : List ℚ) : List ℚ := (List.range xs.length).map (qGain xs)

/-- The loss series as a rational list. -/
def qLossList (xs : List ℚ) : List ℚ := (List.range xs.length).map (qLoss xs)

theorem gainSeries_eq_map (xs : List ℚ) :
    gainSeries xs = (qGainList xs).map MFloat.val := by
  unfold gainSeries seriesDiff qGainList
  rw [List.map_map, List.map_map]
  congr 1
  funext i
  by_cases h0 : i = 0
  · simp [h0, Function.comp, MFloat.gt, mlt_nan_right, qGain]
  · simp [h0, Function.comp, MFloat.gt, MFloat.lt, qGain]
    split_ifs <;> rfl

theorem lossSeries_eq_map (xs : List ℚ) :
    lossSeries xs = (qLossList xs).map MFloat.val := by
  unfold lossSeries seriesDiff qLossList
  rw [List.map_map, List.map_map]
  congr 1
  funext i
  by_cases h0 : i = 0
  · simp [h0, Function.comp, mlt_nan_left, MFloat.neg, qLoss]
  · simp [h0, Function.comp, MFloat.lt, qLoss]
    split_ifs with hc
    · simp [MFloat.neg, neg_sub]
    · simp [MFloat.neg]

theorem qGain_nonneg (xs : List ℚ) (i : ℕ) : 0 ≤ qGain xs i := by
  unfold qGain
  split_ifs with h1 h2
  · exact le_refl 0
  · exact le_of_lt h2
  · exact le_refl 0

theorem qLoss_nonneg (xs : List ℚ) (i : ℕ) : 0 ≤ qLoss xs i := by
  unfold qLoss
  split_ifs with h1 h2
  · exact le_refl 0
  · linarith
  · exact le_refl 0

theorem qGainList_getD_nonneg (xs : List ℚ) (m : ℕ) : 0 ≤ (qGainList xs).getD m 0 := by
  by_cases hm : m < (qGainList xs).length
  · rw [qGainList, getD_map_range _ (by simpa [qGainList] using hm) 0]
    exact qGain_nonneg xs m
  · rw [List.getD_eq_default _ _ (by omega)]

theorem qLossList_getD_nonneg (xs : List ℚ) (m : ℕ) : 0 ≤ (qLossList xs).getD m 0 := by
  by_cases hm : m < (qLossList xs).length
  · rw [qLossList, getD_map_range _ (by simpa [qLossList] using hm) 0]
    exact qLoss_nonneg xs m
  · rw [List.getD_eq_default _ _ (by omega)]

theorem length_qGainList (xs : List ℚ) : (qGainList xs).length = xs.length := by
  simp [qGainList]

theorem length_qLossList (xs : List ℚ) : (qLossList xs).length = xs.length := by
  simp [qLossList]

theorem length_seriesDiff (xs : List ℚ) : (seriesDiff xs).length = xs.length := by
  simp [seriesDiff]

theorem length_gainSeries (xs : List ℚ) : (gainSeries xs).length = xs.length := by
  simp [gainSeries, length_seriesDiff]

theorem length_lossSeries (xs : List ℚ) : (lossSeries xs).length = xs.length := by
  simp [lossSeries, length_seriesDiff]

theorem length_rsiSeries (P : ℕ) (xs : List ℚ) : (rsiSeries P xs).length = xs.length := by
  simp [rsiSeries, List.length_zipWith, length_rollingMeanM, length_gainSeries,
    length_lossSeries]

theorem length_macdLine (f s : ℚ) (xs : List ℚ) : (macdLine f s xs).length = xs.length := by
  simp [macdLine, List.length_zipWith, length_ewmMean]

theorem length_signalLine (f s g : ℚ) (xs : List ℚ) :
    (signalLine f s g xs).length = xs.length := by
  simp [signalLine, length_ewmMean, length_macdLine]

theorem length_histogramLine (f s g : ℚ) (xs : List ℚ) :
    (histogramLine f s g xs).length = xs.length := by
  simp [histogramLine, List.length_zipWith, length_macdLine, length_signalLine]

theorem rsiSeries_getD (P : ℕ) (xs : List ℚ) {i : ℕ} (hi : i < xs.length) :
    (rsiSeries P xs).getD i MFloat.NaN =
      MFloat.sub (MFloat.val 100)
        (MFloat.div (MFloat.val 100) (MFloat.add (MFloat.val 1)
          (MFloat.div ((rollingMeanM P (gainSeries xs)).getD i MFloat.NaN)
            ((rollingMeanM P (lossSeries xs)).getD i MFloat.NaN)))) := by
  have h1 : i < (rollingMeanM P (gainSeries xs)).length := by
    rw [length_rollingMeanM, length_gainSeries]; exact hi
  have h2 : i < (rollingMeanM P (lossSeries xs)).length := by
    rw [length_rollingMeanM, length_lossSeries]; exact hi
  have hz : i < (List.zipWith MFloat.div (rollingMeanM P (gainSeries xs))
      (rollingMeanM P (lossSeries xs))).length := by
    rw [List.length_zipWith]; omega
  unfold rsiSeries
  rw [getD_map _ _ hz MFloat.NaN MFloat.NaN,
    getD_zipWith MFloat.div _ _ i MFloat.NaN MFloat.NaN MFloat.NaN h1 h2]

theorem rsi_point_bounded (g l : ℚ) (hg : 0 ≤ g) (hl : 0 < l) :
    ∃ q : ℚ,
      MFloat.sub (MFloat.val 100)
          (MFloat.div (MFloat.val 100) (MFloat.add (MFloat.val 1)
            (MFloat.div (MFloat.val g) (MFloat.val l)))) = MFloat.val q ∧
        0 ≤ q ∧ q ≤ 100 := by
  have hratio : (0:ℚ) ≤ g / l := div_nonneg hg (le_of_lt hl)
  have ht : (0:ℚ) < 1 + g / l := by linarith
  refine ⟨100 - 100 / (1 + g / l), ?_, ?_, ?_⟩
  · rw [mdiv_val_val g l hl.ne']
    show MFloat.sub (MFloat.val 100)
      (MFloat.div (MFloat.val 100) (MFloat.val (1 + g / l))) = _
    rw [mdiv_val_val 100 _ ht.ne', msub_val_val]
  · have h100 : 100 / (1 + g / l) ≤ 100 / 1 := by
      apply div_le_div_of_nonneg_left (by norm_num) one_pos
      linarith
    simp at h100
    linarith
  · have : 0 < 100 / (1 + g / l) := div_pos (by norm_num) ht
    linarith

theorem rsi_point_saturated (g : ℚ) (hg : 0 < g) :
    MFloat.sub (MFloat.val 100)
        (MFloat.div (MFloat.val 100) (MFloat.add (MFloat.val 1)
          (MFloat.div (MFloat.val g) (MFloat.val 0)))) = MFloat.val 100 := by
  have hne : g ≠ 0 := hg.ne'
  simp [MFloat.div, MFloat.add, MFloat.sub, MFloat.neg, hne, hg]

theorem rsi_point_indeterminate :
    MFloat.sub (MFloat.val 100)
        (MFloat.div (MFloat.val 100) (MFloat.add (MFloat.val 1)
          (MFloat.div (MFloat.val 0) (MFloat.val 0)))) = MFloat.NaN := by
  simp [MFloat.div, MFloat.add, MFloat.sub, MFloat.neg]

theorem avgGain_getD (P : ℕ) (hP : 0 < P) (xs : List ℚ) {i : ℕ} (hi : i < xs.length)
    (hwi : P ≤ i + 1) :
    (rollingMeanM P (gainSeries xs)).getD i MFloat.NaN =
      MFloat.val ((((qGainList xs).drop (i + 1 - P)).take P).sum / (P : ℚ)) := by
  rw [gainSeries_eq_map]
  exact rollingMeanM_val_getD P (qGainList xs)
    (by rw [length_qGainList]; exact hi) hP hwi _

theorem avgLoss_getD (P : ℕ) (hP : 0 < P) (xs : List ℚ) {i : ℕ} (hi : i < xs.length)
    (hwi : P ≤ i + 1) :
    (rollingMeanM P (lossSeries xs)).getD i MFloat.NaN =
      MFloat.val ((((qLossList xs).drop (i + 1 - P)).take P).sum / (P : ℚ)) := by
  rw [lossSeries_eq_map]
  exact rollingMeanM_val_getD P (qLossList xs)
    (by rw [length_qLossList]; exact hi) hP hwi _

theorem qGainList_slice_sum_nonneg (xs : List ℚ) (k w : ℕ) :
    0 ≤ (((qGainList xs).drop k).take w).sum := by
  apply List.sum_nonneg
  intro x hx
  have hx1 : x ∈ qGainList xs := List.mem_of_mem_drop (List.mem_of_mem_take hx)
  simp only [qGainList, List.mem_map, List.mem_range] at hx1
  obtain ⟨j, _, rfl⟩ := hx1
  exact qGain_nonneg xs j

theorem qLossList_slice_sum_nonneg (xs : List ℚ) (k w : ℕ) :
    0 ≤ (((qLossList xs).drop k).take w).sum := by
  apply List.sum_nonneg
  intro x hx
  have hx1 : x ∈ qLossList xs := List.mem_of_mem_drop (List.mem_of_mem_take hx)
  simp only [qLossList, List.mem_map, List.mem_range] at hx1
  obtain ⟨j, _, rfl⟩ := hx1
  exact qLoss_nonneg xs j

/-- The trend-label list that `detect_trend` builds. -/
def trendSeries (xs : List ℚ) : List TrendLabel :=
  (List.range xs.length).map fun i =>
    classifyPoint ((rollingMeanM 20 (xs.map MFloat.val)).getD i MFloat.NaN)
      ((rollingMeanM 50 (xs.map MFloat.val)).getD i MFloat.NaN)
      ((rsiSeries 14 xs).getD i MFloat.NaN)

theorem length_trendSeries (xs : List ℚ) : (trendSeries xs).length = xs.length := by
  simp [trendSeries]

theorem calculate_sma_of_nonneg (s : Session) (W : Int) (hW : ¬ W < 0) :
    calculate_sma s W = Except.ok (rollingMeanM W.toNat (s.data.map MFloat.val),
      ⟨s.data,
        setIndicator s.indicators ("SMA_" ++ toString W)
          (IndSeries.num (rollingMeanM W.toNat (s.data.map MFloat.val)))⟩) := by
  simp [calculate_sma, hW]

theorem calculate_ema_of_pos (s : Session) (W : Int) (hW : ¬ W < 1) :
    calculate_ema s W = Except.ok ((ewmMean (W : ℚ) s.data).map MFloat.val,
      ⟨s.data,
        setIndicator s.indicators ("EMA_" ++ toString W)
          (IndSeries.num ((ewmMean (W : ℚ) s.data).map MFloat.val))⟩) := by
  simp [calculate_ema, hW]

theorem calculate_rsi_of_nonneg (s : Session) (P : Int) (hP : ¬ P < 0) :
    calculate_rsi s P = Except.ok (rsiSeries P.toNat s.data,
      ⟨s.data,
        setIndicator s.indicators "RSI" (IndSeries.num (rsiSeries P.toNat s.data))⟩) := by
  simp [calculate_rsi, hP]

theorem calculate_macd_of_pos (s : Session) (f sl g : Int) (hf : ¬ f < 1)
    (hs : ¬ sl < 1) (hg : ¬ g < 1) :
    calculate_macd s f sl g = Except.ok ((macdLine (f : ℚ) (sl : ℚ) s.data).map MFloat.val,
      (signalLine (f : ℚ) (sl : ℚ) (g : ℚ) s.data).map MFloat.val,
      (histogramLine (f : ℚ) (sl : ℚ) (g : ℚ) s.data).map MFloat.val,
      ⟨s.data,
        setIndicator
          (setIndicator
            (setIndicator s.indicators "MACD"
              (IndSeries.num ((macdLine (f : ℚ) (sl : ℚ) s.data).map MFloat.val)))
            "Signal"
            (IndSeries.num ((signalLine (f : ℚ) (sl : ℚ) (g : ℚ) s.data).map MFloat.val)))
          "Histogram"
          (IndSeries.num ((histogramLine (f : ℚ) (sl : ℚ) (g : ℚ) s.data).map MFloat.val))⟩) := by
  simp [calculate_macd, hf, hs, hg, macdLine, signalLine, histogramLine]

theorem detect_trend_eq (s : Session) :
    detect_trend s = Except.ok (trendSeries s.data,
      ⟨s.data,
        setIndicator
          (setIndicator
            (setIndicator
              (setIndicator s.indicators "SMA_20"
                (IndSeries.num (rollingMeanM 20 (s.data.map MFloat.val))))
              "SMA_50" (IndSeries.num (rollingMeanM 50 (s.data.map MFloat.val))))
            "RSI" (IndSeries.num (rsiSeries 14 s.data)))
          "Trend" (IndSeries.lab (trendSeries s.data))⟩) := rfl

/-- The session `main` ends with, as a function of the validated closes. -/
def finalSession (xs : List ℚ) : Session :=
  ⟨xs, [("SMA_20", IndSeries.num (rollingMeanM 20 (xs.map MFloat.val))),
        ("SMA_50", IndSeries.num (rollingMeanM 50 (xs.map MFloat.val))),
        ("EMA_20", IndSeries.num ((ewmMean ((20 : Int) : ℚ) xs).map MFloat.val)),
        ("RSI", IndSeries.num (rsiSeries 14 xs)),
        ("MACD", IndSeries.num ((macdLine ((12 : Int) : ℚ) ((26 : Int) : ℚ) xs).map MFloat.val)),
        ("Signal", IndSeries.num ((signalLine ((12 : Int) : ℚ) ((26 : Int) : ℚ) ((9 : Int) : ℚ) xs).map MFloat.val)),
        ("Histogram", IndSeries.num ((histogramLine ((12 : Int) : ℚ) ((26 : Int) : ℚ) ((9 : Int) : ℚ) xs).map MFloat.val)),
        ("Trend", IndSeries.lab (trendSeries xs))]⟩

theorem runAnalysis_fetch_ok (mk : Market) (tf : String) (raw : List Row) (e : Int)
    (rows : List Row) (hf : fetch_data mk tf raw e = Except.ok rows) :
    runAnalysis mk tf raw e = Except.ok (finalSession (rows.map Row.close)) := by
  unfold runAnalysis
  rw [hf]
  rfl

theorem getD_eq_get (l : List ℚ) {i : ℕ} (h : i < l.length) (d : ℚ) :
    l.getD i d = l.get ⟨i, h⟩ := by
  simp [List.getD_eq_getElem?_getD, List.getElem?_eq_getElem h, List.get_eq_getElem]

theorem setIndicator_length_inv (m : List (String × IndSeries)) (n : ℕ)
    (hm : ∀ p ∈ m, IndSeries.length p.2 = n) (k : String) (v : IndSeries)
    (hv : IndSeries.length v = n) :
    ∀ p ∈ setIndicator m k v, IndSeries.length p.2 = n := by
  intro p hp
  rcases mem_setIndicator m k v p hp with h | h
  · rw [h]; exact hv
  · exact hm p h

theorem classifyPoint_nan_long (x z : MFloat) :
    classifyPoint x MFloat.NaN z = TrendLabel.Neutral := by
  simp [classifyPoint, MFloat.gt, mlt_nan_left, mlt_nan_right]

/-! ## Claims -/

/-- Claim C1: for every window `W ≥ 1` and every price series, the SMA
series returned by `calculate_sma` is NaN at every index `i < W - 1`, and at
every index `i ≥ W - 1` equals the arithmetic mean of the close prices at
indices `i - W + 1` through `i`. -/
theorem sma_warmup_and_mean (s : Session) (W : Int) (hW : 1 ≤ W) (r : List MFloat)
    (s' : Session) (h : calculate_sma s W = Except.ok (r, s')) (i : ℕ)
    (hi : i < s.data.length) :
    (i + 1 < W.toNat → r.getD i MFloat.NaN = MFloat.NaN) ∧
    (W.toNat ≤ i + 1 →
      r.getD i MFloat.NaN =
        MFloat.val
          ((((List.range W.toNat).map fun j => s.data.getD (i + 1 - W.toNat + j) 0).sum) /
            (W : ℚ))) := by
  rw [calculate_sma_of_nonneg s W (by omega)] at h
  simp only [Except.ok.injEq, Prod.mk.injEq] at h
  obtain ⟨hr, _⟩ := h
  subst hr
  constructor
  · intro hlt
    exact rollingMeanM_getD_nan _ _ (by simpa using hi) hlt _
  · intro hge
    have hW0 : 0 < W.toNat := by omega
    rw [rollingMeanM_val_getD W.toNat s.data hi hW0 hge MFloat.NaN,
      drop_take_sum s.data W.toNat (i + 1 - W.toNat) (by omega)]
    have hcast : ((W.toNat : ℚ)) = (W : ℚ) := by exact_mod_cast Int.toNat_of_nonneg (by omega)
    rw [hcast]

/-- Claim C1 witness: the hand fixture `[10..20]` with `W = 5`: index 3 is
NaN and index 4 is `mean 10..14 = 12`. -/
theorem sma_warmup_and_mean_check :
    (rollingMeanM (5 : Int).toNat (([10,11,12,13,14,15,16,17,18,19,20] : List ℚ).map MFloat.val)).getD 3 MFloat.NaN = MFloat.NaN ∧
    (rollingMeanM (5 : Int).toNat (([10,11,12,13,14,15,16,17,18,19,20] : List ℚ).map MFloat.val)).getD 4 MFloat.NaN = MFloat.val 12 := by
  have h3 := sma_warmup_and_mean ⟨[10,11,12,13,14,15,16,17,18,19,20], []⟩ 5 (by decide)
    (rollingMeanM (5 : Int).toNat (([10,11,12,13,14,15,16,17,18,19,20] : List ℚ).map MFloat.val))
    ⟨[10,11,12,13,14,15,16,17,18,19,20],
      setIndicator [] "SMA_5" (IndSeries.num (rollingMeanM (5 : Int).toNat (([10,11,12,13,14,15,16,17,18,19,20] : List ℚ).map MFloat.val)))⟩
    rfl
  refine ⟨(h3 3 (by decide)).1 (by decide), ?_⟩
  rw [(h3 4 (by decide)).2 (by decide)]
  norm_num [List.range_succ, show (5 : Int).toNat = 5 from rfl,
    show ([10,11,12,13,14,15,16,17,18,19,20] : List ℚ)[0]?.getD 0 = 10 from rfl,
    show ([10,11,12,13,14,15,16,17,18,19,20] : List ℚ)[1]?.getD 0 = 11 from rfl,
    show ([10,11,12,13,14,15,16,17,18,19,20] : List ℚ)[2]?.getD 0 = 12 from rfl,
    show ([10,11,12,13,14,15,16,17,18,19,20] : List ℚ)[3]?.getD 0 = 13 from rfl,
    show ([10,11,12,13,14,15,16,17,18,19,20] : List ℚ)[4]?.getD 0 = 14 from rfl]

/-- Claim C2: the trend label assigned by `detect_trend` at each index is
given by the first-match rule `classifyPoint` on SMA(20), SMA(50) and
RSI(14); comparisons involving NaN are always false; consequently every
index `i < 49` of any series is labelled Neutral. -/
theorem trend_rule_and_warmup_neutral (s : Session) (t : List TrendLabel) (s' : Session)
    (h : detect_trend s = Except.ok (t, s')) (i : ℕ) (hi : i < s.data.length) :
    t.getD i TrendLabel.Bullish =
      classifyPoint ((rollingMeanM 20 (s.data.map MFloat.val)).getD i MFloat.NaN)
        ((rollingMeanM 50 (s.data.map MFloat.val)).getD i MFloat.NaN)
        ((rsiSeries 14 s.data).getD i MFloat.NaN) ∧
    (∀ x : MFloat, MFloat.lt MFloat.NaN x = false ∧ MFloat.lt x MFloat.NaN = false ∧
      MFloat.gt MFloat.NaN x = false ∧ MFloat.gt x MFloat.NaN = false) ∧
    (i < 49 → t.getD i TrendLabel.Bullish = TrendLabel.Neutral) := by
  rw [detect_trend_eq] at h
  simp only [Except.ok.injEq, Prod.mk.injEq] at h
  obtain ⟨ht, _⟩ := h
  subst ht
  have hrule : (trendSeries s.data).getD i TrendLabel.Bullish =
      classifyPoint ((rollingMeanM 20 (s.data.map MFloat.val)).getD i MFloat.NaN)
        ((rollingMeanM 50 (s.data.map MFloat.val)).getD i MFloat.NaN)
        ((rsiSeries 14 s.data).getD i MFloat.NaN) := by
    unfold trendSeries
    exact getD_map_range _ hi _
  refine ⟨hrule, ?_, ?_⟩
  · intro x
    exact ⟨mlt_nan_left x, mlt_nan_right x, by simp [MFloat.gt, mlt_nan_right],
      by simp [MFloat.gt, mlt_nan_left]⟩
  · intro h49
    rw [hrule, rollingMeanM_getD_nan 50 _ (by simpa using hi) (by omega) MFloat.NaN]
    exact classifyPoint_nan_long _ _

/-- Claim C2 witness: a one-point series is labelled Neutral at index 0
(which is inside the warm-up region). -/
theorem trend_rule_and_warmup_neutral_check :
    (trendSeries [(1 : ℚ)]).getD 0 TrendLabel.Bullish = TrendLabel.Neutral := by
  exact (trend_rule_and_warmup_neutral ⟨[(1 : ℚ)], []⟩ (trendSeries [(1 : ℚ)]) _
    (detect_trend_eq ⟨[(1 : ℚ)], []⟩) 0 (by decide)).2.2 (by decide)

/-- Claim C3: for every period `P ≥ 1` and every index where the rolling
average gain and loss are both defined (value `val g`, `val l`): the RSI is
a value in `[0, 100]` when `l > 0`; exactly `100` when `l = 0` and `g > 0`;
and NaN when `g = l = 0`. -/
theorem rsi_range_saturation_nan (s : Session) (P : Int) (hP : 1 ≤ P) (r : List MFloat)
    (s' : Session) (h : calculate_rsi s P = Except.ok (r, s')) (i : ℕ)
    (hi : i < s.data.length) (g l : ℚ)
    (hg : (rollingMeanM P.toNat (gainSeries s.data)).getD i MFloat.NaN = MFloat.val g)
    (hl : (rollingMeanM P.toNat (lossSeries s.data)).getD i MFloat.NaN = MFloat.val l) :
    (0 < l → ∃ q : ℚ, r.getD i MFloat.NaN = MFloat.val q ∧ 0 ≤ q ∧ q ≤ 100) ∧
    (l = 0 → 0 < g → r.getD i MFloat.NaN = MFloat.val 100) ∧
    (l = 0 → g = 0 → r.getD i MFloat.NaN = MFloat.NaN) := by
  rw [calculate_rsi_of_nonneg s P (by omega)] at h
  simp only [Except.ok.injEq, Prod.mk.injEq] at h
  obtain ⟨hr, _⟩ := h
  subst hr
  have hwi : P.toNat ≤ i + 1 := by
    by_contra hcon
    push_neg at hcon
    rw [rollingMeanM_getD_nan P.toNat _ (by simpa [length_gainSeries] using hi) hcon] at hg
    exact MFloat.noConfusion hg
  have hg0 : 0 ≤ g := by
    rw [avgGain_getD P.toNat (by omega) s.data hi hwi] at hg
    have hgv : (((qGainList s.data).drop (i + 1 - P.toNat)).take P.toNat).sum / (P.toNat : ℚ) = g := by
      injection hg
    rw [← hgv]
    exact div_nonneg (qGainList_slice_sum_nonneg _ _ _) (by positivity)
  have hrsi : (rsiSeries P.toNat s.data).getD i MFloat.NaN =
      MFloat.sub (MFloat.val 100) (MFloat.div (MFloat.val 100) (MFloat.add (MFloat.val 1)
        (MFloat.div (MFloat.val g) (MFloat.val l)))) := by
    rw [rsiSeries_getD P.toNat s.data hi, hg, hl]
  refine ⟨?_, ?_, ?_⟩
  · intro hl0
    obtain ⟨q, hq, hq0, hq100⟩ := rsi_point_bounded g l hg0 hl0
    exact ⟨q, by rw [hrsi, hq], hq0, hq100⟩
  · intro hl0 hgpos
    rw [hrsi, hl0, rsi_point_saturated g hgpos]
  · intro hl0 hg0eq
    rw [hrsi, hl0, hg0eq, rsi_point_indeterminate]

/-- Claim C3 witness: period 1; on `[1, 2]` the RSI saturates to 100 at
index 1 (`avg_loss = 0 < avg_gain`); on `[2, 1]` it is a value in
`[0, 100]` at index 1 (`avg_loss = 1 > 0`). -/
theorem rsi_range_saturation_nan_check :
    (rsiSeries (1 : Int).toNat [(1 : ℚ), 2]).getD 1 MFloat.NaN = MFloat.val 100 ∧
    (∃ q : ℚ, (rsiSeries (1 : Int).toNat [(2 : ℚ), 1]).getD 1 MFloat.NaN = MFloat.val q ∧
      0 ≤ q ∧ q ≤ 100) := by
  constructor
  · exact (rsi_range_saturation_nan ⟨[(1 : ℚ), 2], []⟩ 1 (by decide) _ _
      (calculate_rsi_of_nonneg _ 1 (by decide)) 1 (by decide) 1 0
      (by norm_num [rollingMeanM, gainSeries, seriesDiff, mSum, List.range_succ,
        MFloat.gt, MFloat.lt, MFloat.add, MFloat.div, show (1 : Int).toNat = 1 from rfl])
      (by norm_num [rollingMeanM, lossSeries, seriesDiff, mSum, List.range_succ,
        MFloat.lt, MFloat.neg, MFloat.add, MFloat.div,
        show (1 : Int).toNat = 1 from rfl])).2.1 rfl (by norm_num)
  · exact (rsi_range_saturation_nan ⟨[(2 : ℚ), 1], []⟩ 1 (by decide) _ _
      (calculate_rsi_of_nonneg _ 1 (by decide)) 1 (by decide) 0 1
      (by norm_num [rollingMeanM, gainSeries, seriesDiff, mSum, List.range_succ,
        MFloat.gt, MFloat.lt, MFloat.add, MFloat.div, show (1 : Int).toNat = 1 from rfl])
      (by norm_num [rollingMeanM, lossSeries, seriesDiff, mSum, List.range_succ,
        MFloat.lt, MFloat.neg, MFloat.add, MFloat.div,
        show (1 : Int).toNat = 1 from rfl])).1 (by norm_num)

/-- Claim C4: for every window `W ≥ 1` and every non-empty price series,
`calculate_ema` seeds with `close[0]`, follows the recurrence
`EMA[i] = a*close[i] + (1-a)*EMA[i-1]` with `a = 2/(W+1)`, and produces no
NaN at any index. -/
theorem ema_seed_recurrence_no_nan (s : Session) (W : Int) (hW : 1 ≤ W) (r : List MFloat)
    (s' : Session) (h : calculate_ema s W = Except.ok (r, s')) (hne : s.data ≠ []) :
    r.getD 0 MFloat.NaN = MFloat.val (s.data.getD 0 0) ∧
    (∀ i : ℕ, i + 1 < s.data.length →
      (ewmMean (W : ℚ) s.data).getD (i + 1) 0 =
        2 / ((W : ℚ) + 1) * s.data.getD (i + 1) 0 +
          (1 - 2 / ((W : ℚ) + 1)) * (ewmMean (W : ℚ) s.data).getD i 0) ∧
    (∀ i : ℕ, i < s.data.length → r.getD i MFloat.NaN ≠ MFloat.NaN) := by
  rw [calculate_ema_of_pos s W (by omega)] at h
  simp only [Except.ok.injEq, Prod.mk.injEq] at h
  obtain ⟨hr, _⟩ := h
  subst hr
  refine ⟨?_, ?_, ?_⟩
  · cases hd : s.data with
    | nil => exact absurd hd hne
    | cons x rest => simp [hd, ewmMean]
  · intro i h1
    exact ewmMean_getD_succ (W : ℚ) s.data i h1
  · intro i hilen
    have hlen : i < (ewmMean (W : ℚ) s.data).length := by
      rw [length_ewmMean]; exact hilen
    rw [getD_map MFloat.val _ hlen MFloat.NaN 0]
    simp

/-- Claim C4 witness: `W = 2` on `[3, 6]`: seed 3, recurrence at index 1,
no NaN at index 1. -/
theorem ema_seed_recurrence_no_nan_check :
    ((ewmMean ((2 : Int) : ℚ) [(3 : ℚ), 6]).map MFloat.val).getD 0 MFloat.NaN = MFloat.val 3 ∧
    (ewmMean ((2 : Int) : ℚ) [(3 : ℚ), 6]).getD 1 0 =
      2 / (((2 : Int) : ℚ) + 1) * 6 +
        (1 - 2 / (((2 : Int) : ℚ) + 1)) * (ewmMean ((2 : Int) : ℚ) [(3 : ℚ), 6]).getD 0 0 ∧
    ((ewmMean ((2 : Int) : ℚ) [(3 : ℚ), 6]).map MFloat.val).getD 1 MFloat.NaN ≠ MFloat.NaN := by
  have h := ema_seed_recurrence_no_nan ⟨[(3 : ℚ), 6], []⟩ 2 (by decide) _ _
    (calculate_ema_of_pos _ 2 (by decide)) (by simp)
  exact ⟨h.1, h.2.1 0 (by decide), h.2.2 1 (by decide)⟩

/-- Claim C5: `calculate_macd` returns `macd[i] = EMA(F)[i] - EMA(S)[i]`;
the signal line is the EMA(G) recurrence applied to the macd series seeded
with `macd[0]`; and `histogram[i] = macd[i] - signal[i]` for every index. -/
theorem macd_histogram_identities (s : Session) (F S G : Int) (hF : 1 ≤ F) (hS : 1 ≤ S)
    (hG : 1 ≤ G) (m sg hist : List MFloat) (s' : Session)
    (h : calculate_macd s F S G = Except.ok (m, sg, hist, s')) :
    (∀ i : ℕ, i < s.data.length →
      m.getD i MFloat.NaN =
        MFloat.val ((ewmMean (F : ℚ) s.data).getD i 0 - (ewmMean (S : ℚ) s.data).getD i 0)) ∧
    (s.data ≠ [] → sg.getD 0 MFloat.NaN = m.getD 0 MFloat.NaN) ∧
    (∀ i : ℕ, i + 1 < s.data.length →
      (signalLine (F : ℚ) (S : ℚ) (G : ℚ) s.data).getD (i + 1) 0 =
        2 / ((G : ℚ) + 1) * (macdLine (F : ℚ) (S : ℚ) s.data).getD (i + 1) 0 +
          (1 - 2 / ((G : ℚ) + 1)) *
            (signalLine (F : ℚ) (S : ℚ) (G : ℚ) s.data).getD i 0) ∧
    (∀ i : ℕ, i < s.data.length →
      hist.getD i MFloat.NaN =
        MFloat.val ((macdLine (F : ℚ) (S : ℚ) s.data).getD i 0 -
          (signalLine (F : ℚ) (S : ℚ) (G : ℚ) s.data).getD i 0)) := by
  rw [calculate_macd_of_pos s F S G (by omega) (by omega) (by omega)] at h
  simp only [Except.ok.injEq, Prod.mk.injEq] at h
  obtain ⟨hm, hsg, hhist, _⟩ := h
  subst hm; subst hsg; subst hhist
  refine ⟨?_, ?_, ?_, ?_⟩
  · intro i hi
    have h1 : i < (macdLine (F : ℚ) (S : ℚ) s.data).length := by
      rw [length_macdLine]; exact hi
    rw [getD_map MFloat.val _ h1 MFloat.NaN 0]
    congr 1
    unfold macdLine
    exact getD_zipWith _ _ _ i 0 0 0 (by rw [length_ewmMean]; exact hi)
      (by rw [length_ewmMean]; exact hi)
  · intro hne
    have h0 : 0 < (macdLine (F : ℚ) (S : ℚ) s.data).length := by
      rw [length_macdLine]
      exact List.length_pos.2 hne
    cases hmacd : macdLine (F : ℚ) (S : ℚ) s.data with
    | nil => rw [hmacd] at h0; simp at h0
    | cons x rest =>
        unfold signalLine
        rw [hmacd]
        simp [ewmMean]
  · intro i h1
    have h1' : i + 1 < (macdLine (F : ℚ) (S : ℚ) s.data).length := by
      rw [length_macdLine]; exact h1
    unfold signalLine
    exact ewmMean_getD_succ (G : ℚ) _ i h1'
  · intro i hi
    have h1 : i < (histogramLine (F : ℚ) (S : ℚ) (G : ℚ) s.data).length := by
      rw [length_histogramLine]; exact hi
    rw [getD_map MFloat.val _ h1 MFloat.NaN 0]
    congr 1
    unfold histogramLine
    exact getD_zipWith _ _ _ i 0 0 0 (by rw [length_macdLine]; exact hi)
      (by rw [length_signalLine]; exact hi)

/-- Claim C5 witness: `F = 1, S = 2, G = 1` on `[1, 2]`: the macd and
histogram identities at index 1, and the macd value there is
`2 - 5/3 = 1/3`. -/
theorem macd_histogram_identities_check :
    ((macdLine ((1 : Int) : ℚ) ((2 : Int) : ℚ) [(1 : ℚ), 2]).map MFloat.val).getD 1 MFloat.NaN =
      MFloat.val ((ewmMean ((1 : Int) : ℚ) [(1 : ℚ), 2]).getD 1 0 -
        (ewmMean ((2 : Int) : ℚ) [(1 : ℚ), 2]).getD 1 0) ∧
    ((histogramLine ((1 : Int) : ℚ) ((2 : Int) : ℚ) ((1 : Int) : ℚ) [(1 : ℚ), 2]).map MFloat.val).getD 1 MFloat.NaN =
      MFloat.val ((macdLine ((1 : Int) : ℚ) ((2 : Int) : ℚ) [(1 : ℚ), 2]).getD 1 0 -
        (signalLine ((1 : Int) : ℚ) ((2 : Int) : ℚ) ((1 : Int) : ℚ) [(1 : ℚ), 2]).getD 1 0) ∧
    (ewmMean ((1 : Int) : ℚ) [(1 : ℚ), 2]).getD 1 0 -
        (ewmMean ((2 : Int) : ℚ) [(1 : ℚ), 2]).getD 1 0 = 1 / 3 := by
  have h := macd_histogram_identities ⟨[(1 : ℚ), 2], []⟩ 1 2 1 (by decide) (by decide)
    (by decide) _ _ _ _ (calculate_macd_of_pos _ 1 2 1 (by decide) (by decide) (by decide))
  refine ⟨h.1 1 (by decide), h.2.2.2 1 (by decide), ?_⟩
  norm_num [ewmMean, ewmStep]

/-- Claim C6 counterexample: with the crypto market type, zero input rows do
NOT fail: `fetch_data` succeeds and the whole analysis runs, storing empty
indicator series — there is no emptiness check in the crypto branch. -/
theorem crypto_empty_rows_no_failure :
    runAnalysis Market.crypto "1d" [] 0 = Except.ok (finalSession []) ∧
    (Except.ok (finalSession []) : Except AnalyzerError Session) ≠
      Except.error AnalyzerError.noDataRetrieved := by
  exact ⟨rfl, by simp⟩

/-- Claim C6 (amended): only the stock branch of `fetch_data` fails on zero
rows (with the "No data retrieved" ValueError, the spec's EmptySeries),
doing so before any indicator computation; the crypto branch performs no
emptiness check and the pipeline completes on an empty series. -/
theorem empty_series_stock_branch_only (tf : String) (e : Int) :
    fetch_data Market.stock tf [] e = Except.error AnalyzerError.noDataRetrieved ∧
    runAnalysis Market.stock tf [] e = Except.error AnalyzerError.noDataRetrieved ∧
    runAnalysis Market.crypto "1d" [] e = Except.ok (finalSession []) := by
  refine ⟨rfl, ?_, ?_⟩
  · rfl
  · exact runAnalysis_fetch_ok Market.crypto "1d" [] e [] rfl

/-- Claim C7 counterexample: `calculate_sma` with window 0 does not fail: it
returns an all-NaN series and stores it under `SMA_0` (pandas only rejects
negative rolling windows; `window = 0` yields the empty-window mean, NaN). -/
theorem sma_zero_window_computes :
    calculate_sma ⟨[(1 : ℚ)], []⟩ 0 =
      Except.ok ([MFloat.NaN], ⟨[(1 : ℚ)], [("SMA_0", IndSeries.num [MFloat.NaN])]⟩) := by
  have h1 : rollingMeanM 0 [MFloat.val 1] = [MFloat.NaN] := by
    norm_num [rollingMeanM, mSum, MFloat.div, List.range_succ]
  have h := calculate_sma_of_nonneg ⟨[(1 : ℚ)], []⟩ 0 (by decide)
  rw [h]
  simp only [show ([(1 : ℚ)] : List ℚ).map MFloat.val = [MFloat.val 1] from rfl, h1]
  rfl

/-- Claim C7 (amended): `calculate_ema` and `calculate_macd` fail for every
span ≤ 0, and `calculate_sma` / `calculate_rsi` fail for negative windows;
a failing call stores nothing and returns no session.  But a zero window
does not fail: `calculate_sma 0` and `calculate_rsi 0` succeed, computing an
all-NaN series and storing it (`SMA_0` / `RSI`). -/
theorem nonpositive_parameter_behavior (s : Session) (W : Int) :
    (W < 0 →
      calculate_sma s W = Except.error AnalyzerError.invalidWindow ∧
      calculate_rsi s W = Except.error AnalyzerError.invalidWindow) ∧
    (W ≤ 0 →
      calculate_ema s W = Except.error AnalyzerError.invalidSpan ∧
      calculate_macd s W 26 9 = Except.error AnalyzerError.invalidSpan ∧
      calculate_macd s 12 W 9 = Except.error AnalyzerError.invalidSpan ∧
      calculate_macd s 12 26 W = Except.error AnalyzerError.invalidSpan) ∧
    (calculate_sma s 0 = Except.ok (rollingMeanM 0 (s.data.map MFloat.val),
      ⟨s.data, setIndicator s.indicators "SMA_0"
        (IndSeries.num (rollingMeanM 0 (s.data.map MFloat.val)))⟩)) ∧
    (∀ i : ℕ, i < s.data.length →
      (rollingMeanM 0 (s.data.map MFloat.val)).getD i MFloat.NaN = MFloat.NaN) ∧
    (calculate_rsi s 0 = Except.ok (rsiSeries 0 s.data,
      ⟨s.data, setIndicator s.indicators "RSI" (IndSeries.num (rsiSeries 0 s.data))⟩)) ∧
    (∀ i : ℕ, i < s.data.length →
      (rsiSeries 0 s.data).getD i MFloat.NaN = MFloat.NaN) := by
  have hzero : ∀ xs : List MFloat, ∀ i : ℕ, i < xs.length →
      (rollingMeanM 0 xs).getD i MFloat.NaN = MFloat.NaN := by
    intro xs i hi
    rw [rollingMeanM_getD 0 xs hi MFloat.NaN]
    simp [mSum, MFloat.div]
  refine ⟨?_, ?_, ?_, ?_, ?_, ?_⟩
  · intro hW
    exact ⟨by simp [calculate_sma, hW], by simp [calculate_rsi, hW]⟩
  · intro hW
    refine ⟨by simp [calculate_ema]; omega, ?_, ?_, ?_⟩
    · simp [calculate_macd]; omega
    · have h1 : ¬ (12 : Int) < 1 := by decide
      simp [calculate_macd, h1]; omega
    · have h1 : ¬ (12 : Int) < 1 := by decide
      have h2 : ¬ (26 : Int) < 1 := by decide
      simp [calculate_macd, h1, h2]; omega
  · exact calculate_sma_of_nonneg s 0 (by decide)
  · intro i hi
    exact hzero _ i (by simpa using hi)
  · exact calculate_rsi_of_nonneg s 0 (by decide)
  · intro i hi
    rw [rsiSeries_getD 0 s.data hi,
      hzero _ i (by simpa [length_gainSeries] using hi),
      hzero _ i (by simpa [length_lossSeries] using hi)]
    rfl

/-- Claim C7 witness: at `W = -1` on a one-point session, SMA and EMA fail;
and RSI with period 0 yields NaN at index 0 instead of failing. -/
theorem nonpositive_parameter_behavior_check :
    calculate_sma ⟨[(1 : ℚ)], []⟩ (-1) = Except.error AnalyzerError.invalidWindow ∧
    calculate_ema ⟨[(1 : ℚ)], []⟩ (-1) = Except.error AnalyzerError.invalidSpan ∧
    (rsiSeries 0 [(1 : ℚ)]).getD 0 MFloat.NaN = MFloat.NaN := by
  have h := nonpositive_parameter_behavior ⟨[(1 : ℚ)], []⟩ (-1)
  exact ⟨(h.1 (by decide)).1, (h.2.1 (by decide)).1, h.2.2.2.2.2 0 (by decide)⟩

/-- Claim C8 counterexample: running `detect_trend` on a session whose
indicator mapping is empty adds the `SMA_20`, `SMA_50` and `RSI` entries as
well as `Trend` — the classifier recomputes and stores the three inputs
rather than reading already-computed entries. -/
theorem detect_trend_populates_fresh_session :
    (detect_trend ⟨[(1 : ℚ)], []⟩).toOption.map (fun p => p.2.indicators.map Prod.fst) =
      some ["SMA_20", "SMA_50", "RSI", "Trend"] ∧
    (["SMA_20", "SMA_50", "RSI", "Trend"] : List String) ≠ ["Trend"] := by
  exact ⟨rfl, by decide⟩

/-- Claim C8 (amended): `detect_trend` recomputes SMA(20), SMA(50) and
RSI(14) through `calculate_sma` / `calculate_rsi`, overwriting their mapping
entries; because the computation is deterministic over the same data, when
those entries already hold the recomputed series their values are unchanged,
and the `Trend` entry is set. -/
theorem detect_trend_overwrite_stable (s : Session)
    (h20 : lookupInd s.indicators "SMA_20" =
      some (IndSeries.num (rollingMeanM 20 (s.data.map MFloat.val))))
    (h50 : lookupInd s.indicators "SMA_50" =
      some (IndSeries.num (rollingMeanM 50 (s.data.map MFloat.val))))
    (hrsi : lookupInd s.indicators "RSI" = some (IndSeries.num (rsiSeries 14 s.data))) :
    detect_trend s = Except.ok (trendSeries s.data,
      ⟨s.data, setIndicator s.indicators "Trend" (IndSeries.lab (trendSeries s.data))⟩) := by
  rw [detect_trend_eq,
    setIndicator_eq_self _ _ _ h20, setIndicator_eq_self _ _ _ h50,
    setIndicator_eq_self _ _ _ hrsi]

/-- Claim C8 witness: a one-point session pre-populated with exactly the
series the three calls produce is left with those entries unchanged and the
`Trend` entry appended. -/
theorem detect_trend_overwrite_stable_check :
    detect_trend ⟨[(1 : ℚ)], [("SMA_20", IndSeries.num [MFloat.NaN]),
        ("SMA_50", IndSeries.num [MFloat.NaN]), ("RSI", IndSeries.num [MFloat.NaN])]⟩ =
      Except.ok (trendSeries [(1 : ℚ)],
        ⟨[(1 : ℚ)], [("SMA_20", IndSeries.num [MFloat.NaN]),
          ("SMA_50", IndSeries.num [MFloat.NaN]), ("RSI", IndSeries.num [MFloat.NaN]),
          ("Trend", IndSeries.lab (trendSeries [(1 : ℚ)]))]⟩) := by
  exact detect_trend_overwrite_stable ⟨[(1 : ℚ)], [("SMA_20", IndSeries.num [MFloat.NaN]),
    ("SMA_50", IndSeries.num [MFloat.NaN]), ("RSI", IndSeries.num [MFloat.NaN])]⟩
    rfl rfl rfl

theorem finalSession_WF (xs : List ℚ) : SessionWF (finalSession xs) := by
  intro p hp
  fin_cases hp <;>
    simp [finalSession, IndSeries.length, length_rollingMeanM, length_ewmMean,
      length_rsiSeries, length_macdLine, length_signalLine, length_histogramLine,
      length_trendSeries]

/-- Claim C9: every indicator series produced by any operation (SMA, EMA,
RSI, the three MACD outputs, the Trend labels) has exactly the length of the
validated price series, and every entry ever stored in the session's
indicator mapping satisfies this alignment invariant. -/
theorem indicator_series_length_invariant (s : Session) (hs : SessionWF s) :
    (∀ (W : Int) (r : List MFloat) (s' : Session),
      calculate_sma s W = Except.ok (r, s') →
      r.length = s.data.length ∧ s'.data = s.data ∧ SessionWF s') ∧
    (∀ (W : Int) (r : List MFloat) (s' : Session),
      calculate_ema s W = Except.ok (r, s') →
      r.length = s.data.length ∧ s'.data = s.data ∧ SessionWF s') ∧
    (∀ (P : Int) (r : List MFloat) (s' : Session),
      calculate_rsi s P = Except.ok (r, s') →
      r.length = s.data.length ∧ s'.data = s.data ∧ SessionWF s') ∧
    (∀ (F S G : Int) (m sg hist : List MFloat) (s' : Session),
      calculate_macd s F S G = Except.ok (m, sg, hist, s') →
      m.length = s.data.length ∧ sg.length = s.data.length ∧
        hist.length = s.data.length ∧ s'.data = s.data ∧ SessionWF s') ∧
    (∀ (t : List TrendLabel) (s' : Session),
      detect_trend s = Except.ok (t, s') →
      t.length = s.data.length ∧ s'.data = s.data ∧ SessionWF s') ∧
    (∀ (mk : Market) (tf : String) (raw : List Row) (e : Int) (sf : Session),
      runAnalysis mk tf raw e = Except.ok sf → SessionWF sf) := by
  refine ⟨?_, ?_, ?_, ?_, ?_, ?_⟩
  · intro W r s' h
    have hW : ¬ W < 0 := by
      by_contra hW
      simp [calculate_sma, hW] at h
    rw [calculate_sma_of_nonneg s W hW] at h
    simp only [Except.ok.injEq, Prod.mk.injEq] at h
    obtain ⟨hr, hs'⟩ := h
    subst hr; subst hs'
    refine ⟨by simp [length_rollingMeanM], rfl, ?_⟩
    exact setIndicator_length_inv s.indicators s.data.length hs _ _
      (by simp [IndSeries.length, length_rollingMeanM])
  · intro W r s' h
    have hW : ¬ W < 1 := by
      by_contra hW
      simp [calculate_ema, hW] at h
    rw [calculate_ema_of_pos s W hW] at h
    simp only [Except.ok.injEq, Prod.mk.injEq] at h
    obtain ⟨hr, hs'⟩ := h
    subst hr; subst hs'
    refine ⟨by simp [length_ewmMean], rfl, ?_⟩
    exact setIndicator_length_inv s.indicators s.data.length hs _ _
      (by simp [IndSeries.length, length_ewmMean])
  · intro P r s' h
    have hP : ¬ P < 0 := by
      by_contra hP
      simp [calculate_rsi, hP] at h
    rw [calculate_rsi_of_nonneg s P hP] at h
    simp only [Except.ok.injEq, Prod.mk.injEq] at h
    obtain ⟨hr, hs'⟩ := h
    subst hr; subst hs'
    refine ⟨length_rsiSeries _ _, rfl, ?_⟩
    exact setIndicator_length_inv s.indicators s.data.length hs _ _
      (by simp [IndSeries.length, length_rsiSeries])
  · intro F S G m sg hist s' h
    have hF : ¬ F < 1 := by
      by_contra hF
      simp [calculate_macd, hF] at h
    have hS : ¬ S < 1 := by
      by_contra hS
      simp [calculate_macd, hF, hS] at h
    have hG : ¬ G < 1 := by
      by_contra hG
      simp [calculate_macd, hF, hS, hG] at h
    rw [calculate_macd_of_pos s F S G hF hS hG] at h
    simp only [Except.ok.injEq, Prod.mk.injEq] at h
    obtain ⟨hm, hsg, hhist, hs'⟩ := h
    subst hm; subst hsg; subst hhist; subst hs'
    refine ⟨by simp [length_macdLine], by simp [length_signalLine],
      by simp [length_histogramLine], rfl, ?_⟩
    apply setIndicator_length_inv _ s.data.length ?_ _ _
      (by simp [IndSeries.length, length_histogramLine])
    apply setIndicator_length_inv _ s.data.length ?_ _ _
      (by simp [IndSeries.length, length_signalLine])
    exact setIndicator_length_inv s.indicators s.data.length hs _ _
      (by simp [IndSeries.length, length_macdLine])
  · intro t s' h
    rw [detect_trend_eq] at h
    simp only [Except.ok.injEq, Prod.mk.injEq] at h
    obtain ⟨ht, hs'⟩ := h
    subst ht; subst hs'
    refine ⟨length_trendSeries _, rfl, ?_⟩
    apply setIndicator_length_inv _ s.data.length ?_ _ _
      (by simp [IndSeries.length, length_trendSeries])
    apply setIndicator_length_inv _ s.data.length ?_ _ _
      (by simp [IndSeries.length, length_rsiSeries])
    apply setIndicator_length_inv _ s.data.length ?_ _ _
      (by simp [IndSeries.length, length_rollingMeanM])
    exact setIndicator_length_inv s.indicators s.data.length hs _ _
      (by simp [IndSeries.length, length_rollingMeanM])
  · intro mk tf raw e sf h
    cases hf : fetch_data mk tf raw e with
    | error err =>
        unfold runAnalysis at h
        rw [hf] at h
        simp [Bind.bind, Except.bind] at h
    | ok rows =>
        rw [runAnalysis_fetch_ok mk tf raw e rows hf] at h
        injection h with h'
        rw [← h']
        exact finalSession_WF _

/-- Claim C9 witness: on a one-point session, SMA(20) has length 1 and the
full pipeline output on the empty crypto fetch satisfies the invariant. -/
theorem indicator_series_length_invariant_check :
    (rollingMeanM (20 : Int).toNat ([(1 : ℚ)].map MFloat.val)).length = 1 ∧
    SessionWF (finalSession []) := by
  have h := indicator_series_length_invariant ⟨[(1 : ℚ)], []⟩
    (by intro p hp; exact absurd hp (List.not_mem_nil p))
  constructor
  · exact (h.1 20 _ _ (calculate_sma_of_nonneg ⟨[(1 : ℚ)], []⟩ 20 (by decide))).1
  · exact h.2.2.2.2.2 Market.crypto "1d" [] 0 (finalSession [])
      (runAnalysis_fetch_ok Market.crypto "1d" [] 0 [] rfl)

theorem chain_getD_lt (xs : List ℚ) (hc : xs.Chain' (· < ·)) (j : ℕ) (hj0 : 1 ≤ j)
    (hj : j < xs.length) : xs.getD (j - 1) 0 < xs.getD j 0 := by
  have hstep := List.chain'_iff_get.mp hc (j - 1) (by omega)
  rw [getD_eq_get xs (show j - 1 < xs.length by omega) 0, getD_eq_get xs hj 0]
  have hfin : xs.get ⟨j - 1 + 1, by omega⟩ = xs.get ⟨j, hj⟩ := by
    congr 1
    exact Fin.ext (show j - 1 + 1 = j by omega)
  rw [← hfin]
  exact hstep

theorem qLoss_zero_of_chain (xs : List ℚ) (hc : xs.Chain' (· < ·)) (j : ℕ)
    (hj : j < xs.length) : qLoss xs j = 0 := by
  unfold qLoss
  by_cases h0 : j = 0
  · simp [h0]
  · have hlt := chain_getD_lt xs hc j (by omega) hj
    rw [if_neg h0, if_neg (by linarith)]

theorem qGain_pos_of_chain (xs : List ℚ) (hc : xs.Chain' (· < ·)) (j : ℕ)
    (hj0 : 1 ≤ j) (hj : j < xs.length) : 0 < qGain xs j := by
  unfold qGain
  have hlt := chain_getD_lt xs hc j hj0 hj
  rw [if_neg (by omega), if_pos (by linarith)]
  linarith

theorem avgLoss_zero_of_chain (xs : List ℚ) (hc : xs.Chain' (· < ·)) (i : ℕ)
    (h13 : 13 ≤ i) (hi : i < xs.length) :
    (rollingMeanM 14 (lossSeries xs)).getD i MFloat.NaN = MFloat.val 0 := by
  rw [avgLoss_getD 14 (by norm_num) xs hi (by omega)]
  have hsum : (((qLossList xs).drop (i + 1 - 14)).take 14).sum = 0 := by
    apply List.sum_eq_zero
    intro x hx
    have hx1 : x ∈ qLossList xs := List.mem_of_mem_drop (List.mem_of_mem_take hx)
    simp only [qLossList, List.mem_map, List.mem_range] at hx1
    obtain ⟨j, hjlt, rfl⟩ := hx1
    exact qLoss_zero_of_chain xs hc j hjlt
  rw [hsum]
  norm_num

theorem avgGain_pos_of_chain (xs : List ℚ) (hc : xs.Chain' (· < ·)) (i : ℕ)
    (h13 : 13 ≤ i) (hi : i < xs.length) :
    ∃ g : ℚ, (rollingMeanM 14 (gainSeries xs)).getD i MFloat.NaN = MFloat.val g ∧
      0 < g := by
  rw [avgGain_getD 14 (by norm_num) xs hi (by omega)]
  refine ⟨_, rfl, ?_⟩
  apply div_pos ?_ (by norm_num)
  rw [drop_take_sum (qGainList xs) 14 (i + 1 - 14) (by rw [length_qGainList]; omega)]
  have helem : (qGainList xs).getD (i + 1 - 14 + 13) 0 = qGain xs i := by
    rw [show i + 1 - 14 + 13 = i by omega, qGainList, getD_map_range (qGain xs) hi 0]
  have hmem : (qGainList xs).getD (i + 1 - 14 + 13) 0 ∈
      (List.range 14).map fun j => (qGainList xs).getD (i + 1 - 14 + j) 0 :=
    List.mem_map.mpr ⟨13, by simp, rfl⟩
  have hpos : 0 < (qGainList xs).getD (i + 1 - 14 + 13) 0 := by
    rw [helem]
    exact qGain_pos_of_chain xs hc i (by omega) hi
  refine lt_of_lt_of_le hpos (List.single_le_sum ?_ _ hmem)
  intro x hx
  obtain ⟨j, _, rfl⟩ := List.mem_map.mp hx
  exact qGainList_getD_nonneg xs _

/-- Claim C10: the undefined first price difference is treated as zero gain
and zero loss (not NaN), so the rolling averages are already defined at
index `P - 1`; in particular for strictly increasing closes the RSI with
period 14 equals exactly 100 at every index from 13 on. -/
theorem rsi_first_delta_zero_and_saturation (s : Session) :
    (1 ≤ s.data.length →
      (gainSeries s.data).getD 0 MFloat.NaN = MFloat.val 0 ∧
      (lossSeries s.data).getD 0 MFloat.NaN = MFloat.val 0) ∧
    (∀ P : ℕ, 0 < P → P ≤ s.data.length →
      ∃ g l : ℚ,
        (rollingMeanM P (gainSeries s.data)).getD (P - 1) MFloat.NaN = MFloat.val g ∧
        (rollingMeanM P (lossSeries s.data)).getD (P - 1) MFloat.NaN = MFloat.val l) ∧
    (s.data.Chain' (· < ·) →
      ∀ i : ℕ, 13 ≤ i → i < s.data.length →
      ∀ (r : List MFloat) (s' : Session),
        calculate_rsi s 14 = Except.ok (r, s') →
        r.getD i MFloat.NaN = MFloat.val 100) := by
  refine ⟨?_, ?_, ?_⟩
  · intro hlen
    constructor
    · rw [gainSeries_eq_map,
        getD_map MFloat.val _ (by rw [length_qGainList]; omega) MFloat.NaN 0,
        qGainList, getD_map_range (qGain s.data) (by omega) 0]
      simp [qGain]
    · rw [lossSeries_eq_map,
        getD_map MFloat.val _ (by rw [length_qLossList]; omega) MFloat.NaN 0,
        qLossList, getD_map_range (qLoss s.data) (by omega) 0]
      simp [qLoss]
  · intro P hP hPlen
    exact ⟨_, _, avgGain_getD P hP s.data (by omega) (by omega),
      avgLoss_getD P hP s.data (by omega) (by omega)⟩
  · intro hc i h13 hi r s' h
    rw [calculate_rsi_of_nonneg s 14 (by decide)] at h
    simp only [Except.ok.injEq, Prod.mk.injEq] at h
    obtain ⟨hr, _⟩ := h
    subst hr
    obtain ⟨g, hg, hgpos⟩ := avgGain_pos_of_chain s.data hc i h13 hi
    have hl := avgLoss_zero_of_chain s.data hc i h13 hi
    rw [show (14 : Int).toNat = 14 from rfl, rsiSeries_getD 14 s.data hi, hg, hl]
    exact rsi_point_saturated g hgpos

/-- Claim C10 witness: on the strictly increasing closes `0..14`, the gain
series is 0 at index 0 and the RSI(14) equals 100 at index 13. -/
theorem rsi_first_delta_zero_and_saturation_check :
    (gainSeries [(0 : ℚ),1,2,3,4,5,6,7,8,9,10,11,12,13,14]).getD 0 MFloat.NaN =
      MFloat.val 0 ∧
    (rsiSeries (14 : Int).toNat [(0 : ℚ),1,2,3,4,5,6,7,8,9,10,11,12,13,14]).getD 13
      MFloat.NaN = MFloat.val 100 := by
  have h := rsi_first_delta_zero_and_saturation
    ⟨[(0 : ℚ),1,2,3,4,5,6,7,8,9,10,11,12,13,14], []⟩
  refine ⟨(h.1 (by decide)).1, ?_⟩
  exact h.2.2 (by norm_num [List.chain'_cons, List.chain'_singleton]) 13 (by decide)
    (by decide) _ _ (calculate_rsi_of_nonneg _ 14 (by decide))
